import Mathlib

/-!
Shallow embedding of the block_drop Tetris repository
(src/block_drop.py, src/board.py, src/game.py, src/constants.py),
with theorems checking the natural-language specification against it.

Python integers are modelled as `Int` where they can go negative
(piece coordinates, rotation counters) and as `Nat` where the code keeps
them non-negative (board dimensions, scores, counters).  Python lists are
Lean `List`s: `del l[i]` is `List.eraseIdx`, `l.insert(0, r)` is `cons`,
`l.pop()` is `getLast?`/`dropLast`.  A Python `IndexError` is modelled by
`Option` (`none` = raise) in the functions that index without a guard.
-/

namespace BlockDrop

/-- The seven piece kinds of block_drop.py. -/
inductive Kind where
  | I | O | T | S | Z | J | L
deriving DecidableEq, Repr

/-- `BlockDropGenerator.PIECE_TYPES`. -/
def PIECE_TYPES : List Kind := [.I, .O, .T, .S, .Z, .J, .L]

/-- `BlockDrop.SHAPES`: the rotation-state lists, verbatim from the source. -/
def SHAPES : Kind → List (List String)
  | .I => [["....", "IIII", "....", "...."],
           ["..I.", "..I.", "..I.", "..I."]]
  | .O => [["OO", "OO"]]
  | .T => [["...", "TTT", ".T."],
           ["...", ".T.", "TT.", ".T."],
           ["...", ".T.", "TTT", "..."],
           ["...", ".T.", ".TT", ".T."]]
  | .S => [["...", ".SS", "SS."],
           ["...", ".S.", ".SS", "..S"]]
  | .Z => [["...", "ZZ.", ".ZZ"],
           ["...", "..Z", ".ZZ", ".Z."]]
  | .J => [["...", "JJJ", "..J"],
           ["...", ".J.", ".J.", "JJ."],
           ["...", "J..", "JJJ", "..."],
           ["...", ".JJ", ".J.", ".J."]]
  | .L => [["...", "LLL", "L.."],
           ["...", "LL.", ".L.", ".L."],
           ["...", "..L", "LLL", "..."],
           ["...", ".L.", ".L.", ".LL"]]

/-- Number of rotation states of a kind (`len(self.shapes)`). -/
def numShapes (k : Kind) : Nat := (SHAPES k).length

/-- A `BlockDrop` piece: kind, absolute position and rotation counter.
Python's rotation counter is an int kept in range by `%`; `%` on a
positive modulus in Python is `Int.emod`, Lean's `%` on `Int`. -/
structure Piece where
  kind : Kind
  x : Int
  y : Int
  rotation : Int
deriving DecidableEq, Repr

/-- `BlockDrop.current_shape`: `self.shapes[self.rotation % len(self.shapes)]`. -/
def currentShape (p : Piece) : List String :=
  (SHAPES p.kind).getD ((p.rotation % (numShapes p.kind : Int)).toNat) []

/-- The relative cells of one shape: every character other than `.` and a
space, as `(colIdx, rowIdx)` — `BlockDrop.get_relative_cells`. -/
def shapeCells (shape : List String) : List (Int × Int) :=
  (shape.enum.map (fun ri =>
    (ri.2.toList.enum.filterMap (fun ci =>
      if ci.2 ≠ '.' ∧ ci.2 ≠ ' ' then some ((ci.1 : Int), (ri.1 : Int)) else none)))).flatten

/-- `BlockDrop.get_cells`: absolute positions `(x + colIdx, y + rowIdx)`. -/
def getCells (p : Piece) : List (Int × Int) :=
  (shapeCells (currentShape p)).map (fun c => (p.x + c.1, p.y + c.2))

/-- `BlockDrop.rotate_clockwise`: `rotation = (rotation + 1) % len(shapes)`. -/
def rotateCW (p : Piece) : Piece :=
  { p with rotation := (p.rotation + 1) % (numShapes p.kind : Int) }

/-- `BlockDrop.rotate_counterclockwise`: `rotation = (rotation - 1) % len(shapes)`. -/
def rotateCCW (p : Piece) : Piece :=
  { p with rotation := (p.rotation - 1) % (numShapes p.kind : Int) }

/-- The game board: `width`, `height`, `grid` (row-major, `none` = empty)
and the cumulative `cleared_lines` counter. -/
structure Board where
  width : Nat
  height : Nat
  grid : List (List (Option Kind))
  clearedLines : Nat
deriving DecidableEq, Repr

/-- `Board.__init__`: a `height × width` grid of `None`. -/
def Board.init (width height : Nat) : Board :=
  ⟨width, height, List.replicate height (List.replicate width none), 0⟩

/-- The grid cell read `self.grid[y][x]`, performed only under the guards
`0 <= y` (checked) and `x,y` in range (guaranteed by the earlier bound
checks when the grid is well-formed). -/
def gridCell (g : List (List (Option Kind))) (x y : Int) : Option Kind :=
  (g.getD y.toNat []).getD x.toNat none

/-- One iteration of the `Board.is_valid_position` loop: `false` exactly
when the cell fails a bound check or collides. -/
def cellOK (b : Board) (c : Int × Int) : Bool :=
  if c.1 < 0 ∨ (b.width : Int) ≤ c.1 ∨ (b.height : Int) ≤ c.2 then false
  else if 0 ≤ c.2 ∧ (gridCell b.grid c.1 c.2).isSome then false
  else true

/-- `Board.is_valid_position`: all cells pass the bound and collision
checks (an early `return False` in the loop is `List.all`). -/
def isValidPosition (b : Board) (p : Piece) : Bool :=
  (getCells p).all (cellOK b)

/-- `TetrisGame.spawn_new_piece` places the piece at
`x = BOARD_WIDTH // 2 - 1 = 4`, `y = 0`, rotation `0`. -/
def spawnPiece (k : Kind) : Piece := ⟨k, 4, 0, 0⟩

/-- The default board (`BOARD_WIDTH = 10`, `BOARD_HEIGHT = 20`). -/
def initialBoard : Board := Board.init 10 20

/-- Well-formedness of a board's grid: `height` rows of `width` cells.
`Board.__init__` establishes it and every operation preserves it. -/
def BoardWF (b : Board) : Prop :=
  b.grid.length = b.height ∧ ∀ r ∈ b.grid, r.length = b.width

instance (b : Board) : Decidable (BoardWF b) := by
  unfold BoardWF; infer_instance

/-- The single write `self.grid[y][x] = piece.piece_type`. -/
def setCell (g : List (List (Option Kind))) (x y : Int) (k : Kind) :
    List (List (Option Kind)) :=
  g.set y.toNat ((g.getD y.toNat []).set x.toNat (some k))

/-- One iteration of the `Board.place_piece` write loop, guarded by
`0 <= y < self.height and 0 <= x < self.width`. -/
def writeCell (w h : Nat) (k : Kind) (g : List (List (Option Kind)))
    (c : Int × Int) : List (List (Option Kind)) :=
  if 0 ≤ c.2 ∧ c.2 < (h : Int) ∧ 0 ≤ c.1 ∧ c.1 < (w : Int) then
    setCell g c.1 c.2 k
  else g

/-- `Board.place_piece`: validate first; on success write the piece kind
into every in-range cell. -/
def placePiece (b : Board) (p : Piece) : Bool × Board :=
  if isValidPosition b p then
    (true, { b with grid := (getCells p).foldl (writeCell b.width b.height p.kind) b.grid })
  else (false, b)

/-- A completed row: `all(cell is not None for cell in row)`. -/
def isFullRow (row : List (Option Kind)) : Bool := row.all (fun c => c.isSome)

/-- `Board.clear_lines`, verbatim: collect completed row indices
top-to-bottom, then for each index from bottom-most to top-most delete the
row at that index (`del self.grid[y]` = `eraseIdx`) and push a fresh empty
row on top (`insert(0, ...)` = `cons`) — inside the same loop iteration. -/
def clearLines (b : Board) : Nat × Board :=
  let linesToClear := (List.range b.height).filter (fun y => isFullRow (b.grid.getD y []))
  let g2 := linesToClear.reverse.foldl
    (fun g y => (List.replicate b.width (none : Option Kind)) :: g.eraseIdx y) b.grid
  (linesToClear.length,
   { b with grid := g2, clearedLines := b.clearedLines + linesToClear.length })

/-- `Board.is_game_over`: any occupied cell in the top row. -/
def isGameOver (b : Board) : Bool := (b.grid.getD 0 []).any (fun c => c.isSome)

/-- The `Board.get_drop_position` loop
(`while is_valid_position(test): test.y += 1; return test.y - 1`); the
test piece differs from `p` only in its row, which is the recursion
variable.  A fuel argument stands in for the unbounded Python loop; the
fuel chosen in `getDropPosition` is proven sufficient: every shape has at
least one cell, so validity fails once the row passes the board height. -/
def dropLoop (b : Board) (p : Piece) : Nat → Int → Int
  | 0, y => y - 1
  | fuel + 1, y =>
    if isValidPosition b { p with y := y } then dropLoop b p fuel (y + 1)
    else y - 1

/-- `Board.get_drop_position`. -/
def getDropPosition (b : Board) (p : Piece) : Int :=
  dropLoop b p (((b.height : Int) + 1 - p.y).toNat) p.y

/-- `Board.get_cell_type`: guarded read, `None` for out-of-range input. -/
def getCellType (b : Board) (x y : Int) : Option Kind :=
  if 0 ≤ x ∧ x < (b.width : Int) ∧ 0 ≤ y ∧ y < (b.height : Int) then
    gridCell b.grid x y
  else none

/-- Python list indexing `l[i]`: wraps once for negative `i`, raises
(modelled `none`) outside `[-len, len)`. -/
def pyIdx {α : Type} (l : List α) (i : Int) : Option α :=
  if 0 ≤ i then l.get? i.toNat
  else if 0 ≤ i + (l.length : Int) then l.get? (i + (l.length : Int)).toNat
  else none

/-- The `Board.get_height_at_column` loop over `row in range(self.height)`,
reading `self.grid[row][col]` without a bound guard on `col`; `none`
models the `IndexError` raise. -/
def heightLoop (b : Board) (col : Int) : Nat → Nat → Option Nat
  | 0, _ => some 0
  | fuel + 1, row =>
    match b.grid.get? row with
    | none => none
    | some r =>
      match pyIdx r col with
      | none => none
      | some cell =>
        if cell.isSome then some (b.height - row) else heightLoop b col fuel (row + 1)

/-- `Board.get_height_at_column`. -/
def getHeightAtColumn (b : Board) (col : Int) : Option Nat :=
  heightLoop b col b.height 0

/-- Index of the topmost occupied row of a column (spec-side description). -/
def columnTop (b : Board) (col : Int) : Option Nat :=
  b.grid.findIdx? (fun r => (r.getD col.toNat none).isSome)

/-- Height of a column as the spec describes it: board height minus the
topmost occupied row, `0` when the column is empty. -/
def columnHeightSpec (b : Board) (col : Int) : Nat :=
  match columnTop b col with
  | some i => b.height - i
  | none => 0

/-! Game-level definitions (src/game.py, src/constants.py).  Scores and
counters stay non-negative in the code, so they are `Nat`; the pygame
timing fields (`last_fall_time`, `fall_speed`) and the renderer are not
part of the game logic the claims mention and are not modelled — the
gravity decision `current_time - last_fall_time >= fall_speed` enters as
the boolean `fallDue` argument of `update`.  `random.shuffle` enters as
the `shuffle : List Kind` argument used when the bag refills. -/

def SCORE_SINGLE : Nat := 100
def SCORE_DOUBLE : Nat := 300
def SCORE_TRIPLE : Nat := 500
def SCORE_TETRIS : Nat := 800
def SCORE_SOFT_DROP : Nat := 1
def LINES_PER_LEVEL : Nat := 10

/-- The wall-kick offsets tried by `TetrisGame.rotate_piece`. -/
def WALL_KICKS : List Int := [-1, 1, -2, 2]

/-- `TetrisGame` state (the fields the claims are about). -/
structure Game where
  board : Board
  bag : List Kind
  currentPiece : Option Piece
  nextPiece : Option Piece
  score : Nat
  level : Nat
  linesCleared : Nat
  gameOver : Bool
  paused : Bool
deriving DecidableEq, Repr

/-- `BlockDropGenerator.get_next_piece`: pop the last bag element,
refilling with the shuffled order when the bag is empty.  Python's
`list.pop()` on an empty refilled bag would raise; that cannot happen when
the shuffle is a permutation of the 7 kinds, and is modelled by `Option`. -/
def getNextPiece (shuffle bag : List Kind) (x y : Int) : Option Piece × List Kind :=
  let b := if bag.isEmpty then shuffle else bag
  (b.getLast?.map (fun k => Piece.mk k x y 0), b.dropLast)

/-- `TetrisGame.spawn_new_piece`: promote the next piece to
`(BOARD_WIDTH // 2 - 1, 0) = (4, 0)`, draw a fresh next piece, and set
`game_over` when the spawned piece is invalid. -/
def spawnNewPiece (shuffle : List Kind) (g : Game) : Game :=
  let cur : Option Piece × List Kind :=
    match g.nextPiece with
    | some np => (some { np with x := 4, y := 0 }, g.bag)
    | none => getNextPiece shuffle g.bag 4 0
  let nxt := getNextPiece shuffle cur.2 4 0
  let invalidSpawn :=
    match cur.1 with
    | some c => !isValidPosition g.board c
    | none => false
  { g with currentPiece := cur.1, nextPiece := nxt.1, bag := nxt.2,
           gameOver := g.gameOver || invalidSpawn }

/-- `TetrisGame.move_piece`: guard, then test the moved copy. -/
def movePiece (g : Game) (dx dy : Int) : Bool × Game :=
  match g.currentPiece with
  | none => (false, g)
  | some p =>
    if g.gameOver || g.paused then (false, g)
    else
      let t := { p with x := p.x + dx, y := p.y + dy }
      if isValidPosition g.board t then (true, { g with currentPiece := some t })
      else (false, g)

/-- The wall-kick loop of `TetrisGame.rotate_piece`: try each offset from
the base column in order, returning the first that validates (the loop
resets `test_piece.x` each iteration, so offsets are from `baseX`). -/
def tryKicks (b : Board) (rotated : Piece) (baseX : Int) : List Int → Option Int
  | [] => none
  | dx :: rest =>
    if isValidPosition b { rotated with x := baseX + dx } then some dx
    else tryKicks b rotated baseX rest

/-- `TetrisGame.rotate_piece`. -/
def rotatePiece (g : Game) (cw : Bool) : Bool × Game :=
  match g.currentPiece with
  | none => (false, g)
  | some p =>
    if g.gameOver || g.paused then (false, g)
    else
      let t := if cw then rotateCW p else rotateCCW p
      if isValidPosition g.board t then (true, { g with currentPiece := some t })
      else
        match tryKicks g.board t p.x WALL_KICKS with
        | some dx => (true, { g with currentPiece := some { t with x := p.x + dx } })
        | none => (false, g)

/-- `TetrisGame.update_score`: base award from the if/elif table times the
current level. -/
def updateScore (g : Game) (linesCleared : Nat) : Game :=
  let base :=
    if linesCleared = 1 then SCORE_SINGLE
    else if linesCleared = 2 then SCORE_DOUBLE
    else if linesCleared = 3 then SCORE_TRIPLE
    else if linesCleared = 4 then SCORE_TETRIS
    else 0
  { g with score := g.score + base * g.level }

/-- `TetrisGame.update_level` (the `fall_speed` recomputation is timing
and not modelled). -/
def updateLevel (g : Game) : Game :=
  let newLevel := 1 + g.linesCleared / LINES_PER_LEVEL
  if newLevel > g.level then { g with level := newLevel } else g

/-- `TetrisGame.lock_piece`: place, clear lines, update counters/score/
level when lines were cleared, then either flag game over or spawn. -/
def lockPiece (shuffle : List Kind) (g : Game) : Game :=
  match g.currentPiece with
  | none => g
  | some p =>
    let b1 := (placePiece g.board p).2
    let r := clearLines b1
    let g1 := { g with board := r.2 }
    let g2 :=
      if 0 < r.1 then
        updateLevel (updateScore { g1 with linesCleared := g1.linesCleared + r.1 } r.1)
      else g1
    if isGameOver g2.board then { g2 with gameOver := true }
    else spawnNewPiece shuffle g2

/-- `TetrisGame.soft_drop`: a successful down-move adds `SCORE_SOFT_DROP`. -/
def softDrop (g : Game) : Bool × Game :=
  let r := movePiece g 0 1
  if r.1 then (true, { r.2 with score := r.2.score + SCORE_SOFT_DROP }) else (false, r.2)

/-- The `while self.move_piece(0, 1)` loop of `TetrisGame.hard_drop`:
final row of the piece and the drop distance, fuel as in `dropLoop`
(each iteration moves down only when the next row validates). -/
def hardLoop (b : Board) (p : Piece) : Nat → Int → Int × Nat
  | 0, y => (y, 0)
  | fuel + 1, y =>
    if isValidPosition b { p with y := y + 1 } then
      let r := hardLoop b p fuel (y + 1)
      (r.1, r.2 + 1)
    else (y, 0)

/-- `TetrisGame.hard_drop`: guard, drop to rest, add `2` per row, lock. -/
def hardDrop (shuffle : List Kind) (g : Game) : Game :=
  match g.currentPiece with
  | none => g
  | some p =>
    if g.gameOver || g.paused then g
    else
      let r := hardLoop g.board p (((g.board.height : Int) + 1 - p.y).toNat) p.y
      lockPiece shuffle
        { g with currentPiece := some { p with y := r.1 }, score := g.score + r.2 * 2 }

/-- `TetrisGame.update`: the guard and, when the fall timer has elapsed
(`fallDue`), one gravity step — move down or lock. -/
def update (shuffle : List Kind) (fallDue : Bool) (g : Game) : Game :=
  if g.gameOver || g.paused then g
  else if fallDue then
    let r := movePiece g 0 1
    if r.1 then r.2 else lockPiece shuffle r.2
  else g

/-- `n` successive draws from the generator (threading the bag), as the
list of kinds drawn — `BlockDropGenerator.get_next_piece` iterated. -/
def drawKinds (shuffle : List Kind) : Nat → List Kind → List Kind × List Kind
  | 0, bag => ([], bag)
  | n + 1, bag =>
    let b := if bag.isEmpty then shuffle else bag
    match b.getLast? with
    | none => ([], b)
    | some k =>
      let r := drawKinds shuffle n b.dropLast
      (k :: r.1, r.2)

/-- A finite sequence of rotation calls applied to a piece
(`true` = `rotate_clockwise`, `false` = `rotate_counterclockwise`). -/
def applyRotations (ops : List Bool) (p : Piece) : Piece :=
  ops.foldl (fun q cw => if cw then rotateCW q else rotateCCW q) p

/-- Spec-side grid read at signed coordinates: the cell at `(x, y)` when
both are non-negative (`none` otherwise, and for rows/columns off the
end). -/
def cellAt (g : List (List (Option Kind))) (x y : Int) : Option Kind :=
  if 0 ≤ x ∧ 0 ≤ y then gridCell g x y else none

/-- A quiescent game at level 1 used to instantiate theorems. -/
def sampleGame : Game :=
  ⟨initialBoard, [], some (spawnPiece .T), none, 0, 1, 0, false, false⟩

/-- Width-2, height-4 board whose rows 1 and 3 are complete (rows 0 and 2
are not): the input on which `clear_lines` misbehaves. -/
def bugBoard : Board :=
  ⟨2, 4, [[none, none], [some .I, some .I], [some .O, none], [some .T, some .T]], 0⟩

/-- An overhang: row 1 fully occupied, rows 2-4 free underneath it. -/
def ovBoard : Board :=
  ⟨2, 5, [[none, none], [some .I, some .I], [none, none], [none, none], [none, none]], 0⟩

/-- An O piece sitting above the overhang, still valid at `y = -1`. -/
def ovPiece : Piece := ⟨.O, 0, -1, 0⟩

/-- C2: `is_valid_position` returns false iff some absolute cell is out of
the horizontal bounds, at or below the bottom, or at a non-negative row
that is already occupied; and every freshly spawned piece is valid on an
empty default board at the canonical spawn column. -/
theorem is_valid_position_spec :
    (∀ (b : Board) (p : Piece),
      isValidPosition b p = false ↔ ∃ c ∈ getCells p,
        c.1 < 0 ∨ (b.width : Int) ≤ c.1 ∨ (b.height : Int) ≤ c.2 ∨
          (0 ≤ c.2 ∧ (gridCell b.grid c.1 c.2).isSome)) ∧
    (∀ k : Kind, isValidPosition initialBoard (spawnPiece k) = true) := by
  constructor
  · intro b p
    unfold isValidPosition
    rw [List.all_eq_false]
    constructor
    · rintro ⟨c, hc, hok⟩
      refine ⟨c, hc, ?_⟩
      unfold cellOK at hok
      by_cases h1 : c.1 < 0 ∨ (b.width : Int) ≤ c.1 ∨ (b.height : Int) ≤ c.2
      · rcases h1 with h | h | h
        · exact Or.inl h
        · exact Or.inr (Or.inl h)
        · exact Or.inr (Or.inr (Or.inl h))
      · rw [if_neg h1] at hok
        by_cases h2 : 0 ≤ c.2 ∧ (gridCell b.grid c.1 c.2).isSome
        · exact Or.inr (Or.inr (Or.inr h2))
        · rw [if_neg h2] at hok
          simp at hok
    · rintro ⟨c, hc, hbad⟩
      refine ⟨c, hc, ?_⟩
      unfold cellOK
      rcases hbad with h | h | h | h
      · rw [if_pos (Or.inl h)]; simp
      · rw [if_pos (Or.inr (Or.inl h))]; simp
      · rw [if_pos (Or.inr (Or.inr h))]; simp
      · by_cases h1 : c.1 < 0 ∨ (b.width : Int) ≤ c.1 ∨ (b.height : Int) ≤ c.2
        · rw [if_pos h1]; simp
        · rw [if_neg h1, if_pos h]; simp
  · intro k
    cases k <;> decide

/-- Every kind has a positive number of rotation states, so the index
`rotation % len(shapes)` is always in range. -/
theorem rotIndex_lt (p : Piece) :
    (p.rotation % (numShapes p.kind : Int)).toNat < (SHAPES p.kind).length := by
  have hpos : 0 < (numShapes p.kind : Int) := by
    cases hk : p.kind <;> simp [numShapes, SHAPES]
  have h1 : 0 ≤ p.rotation % (numShapes p.kind : Int) :=
    Int.emod_nonneg _ (by omega)
  have h2 : p.rotation % (numShapes p.kind : Int) < (numShapes p.kind : Int) :=
    Int.emod_lt_of_pos _ hpos
  have h3 : (SHAPES p.kind).length = numShapes p.kind := rfl
  omega

/-- C9: for every piece and every finite sequence of clockwise or
counterclockwise rotation calls, the index `rotation % stateCount` used by
`current_shape` is a valid index into that kind's rotation-state list. -/
theorem rotation_index_valid (p : Piece) (ops : List Bool) :
    ((applyRotations ops p).rotation %
        (numShapes (applyRotations ops p).kind : Int)).toNat
      < (SHAPES (applyRotations ops p).kind).length :=
  rotIndex_lt (applyRotations ops p)

/-- C5: the base award per lock event is 100, 300, 500, 800 for 1-4
cleared lines (0 for 0), multiplied by the current level; a Tetris awards
800 at level 1 and 1600 at level 2. -/
theorem update_score_table :
    (∀ g : Game,
      (updateScore g 0).score = g.score ∧
      (updateScore g 1).score = g.score + 100 * g.level ∧
      (updateScore g 2).score = g.score + 300 * g.level ∧
      (updateScore g 3).score = g.score + 500 * g.level ∧
      (updateScore g 4).score = g.score + 800 * g.level) ∧
    (updateScore sampleGame 4).score = 800 ∧
    (updateScore { sampleGame with level := 2 } 4).score = 1600 := by
  refine ⟨fun g => ⟨?_, ?_, ?_, ?_, ?_⟩, by decide, by decide⟩ <;>
    simp [updateScore, SCORE_SINGLE, SCORE_DOUBLE, SCORE_TRIPLE, SCORE_TETRIS]

/-- C1: on a board whose rows 1 and 3 are complete (width 2, height 4),
`clear_lines` reports 2 cleared lines and bumps the counter by 2, but the
surviving grid still contains completed row 1 (the `I I` row) and has lost
non-completed row 0 — because each `del self.grid[y]` is preceded by a
top insertion from the previous iteration that shifted the indices, the
code removes the wrong rows; gravity compaction would instead give
`[[·,·],[·,·],[·,·],[O,·]]`. -/
theorem clear_lines_wrong_rows :
    (clearLines bugBoard).1 = 2 ∧
    (clearLines bugBoard).2.clearedLines = 2 ∧
    (clearLines bugBoard).2.grid =
      [[none, none], [none, none],
       [some .I, some .I], [some .O, none]] ∧
    isFullRow ((clearLines bugBoard).2.grid.getD 2 []) = true ∧
    (clearLines bugBoard).2.grid ≠
      [[none, none], [none, none], [none, none], [some .O, none]] := by
  decide

/-- Drawing as many pieces as the bag holds pops them back-to-front:
the drawn sequence is the bag reversed, and the bag is left empty. -/
theorem drawKinds_full (shuffle : List Kind) :
    ∀ (n : Nat) (bag : List Kind), bag.length = n →
      drawKinds shuffle n bag = (bag.reverse, []) := by
  intro n
  induction n with
  | zero =>
    intro bag h
    rw [List.length_eq_zero] at h
    subst h
    rfl
  | succ n ih =>
    intro bag h
    rcases List.eq_nil_or_concat bag with hnil | ⟨ys, a, rfl⟩
    · subst hnil; simp at h
    · have hlen : ys.length = n := by
        simpa using h
      have hne : (ys.concat a).isEmpty = false := by
        simp [List.concat_eq_append]
      rw [drawKinds, hne]
      simp only [Bool.false_eq_true, if_false, List.concat_eq_append,
        List.getLast?_concat, List.dropLast_concat]
      rw [ih ys hlen]
      simp

/-- C8: from a freshly refilled bag (any permutation the shuffle may
produce), 7 consecutive draws yield each of the 7 kinds exactly once, and
the run contains no repeated kind. -/
theorem bag_seven_draws_each_kind_once (shuffle bag : List Kind)
    (h : bag.Perm PIECE_TYPES) :
    (∀ k : Kind, ((drawKinds shuffle 7 bag).1).count k = 1) ∧
    ((drawKinds shuffle 7 bag).1).Nodup := by
  have hlen : bag.length = 7 := by
    simpa [PIECE_TYPES] using h.length_eq
  rw [drawKinds_full shuffle 7 bag hlen]
  have hperm : bag.reverse.Perm PIECE_TYPES := bag.reverse_perm.trans h
  constructor
  · intro k
    rw [hperm.count_eq]
    cases k <;> decide
  · exact hperm.nodup_iff.mpr (by decide)

/-- Witness for C8 at the identity shuffle order. -/
theorem bag_seven_draws_each_kind_once_witness :
    PIECE_TYPES.Perm PIECE_TYPES ∧
    ((drawKinds [] 7 PIECE_TYPES).1).count Kind.I = 1 :=
  ⟨List.Perm.refl _,
   (bag_seven_draws_each_kind_once [] PIECE_TYPES (List.Perm.refl _)).1 Kind.I⟩

/-- C6: when the game is paused, over, or has no current piece,
`move_piece`, `rotate_piece` and `soft_drop` fail and change nothing,
`hard_drop` changes nothing, and the gravity `update` changes nothing —
so after a game over every such command stays blocked (the state, the
`game_over` flag included, never changes). -/
theorem guarded_ops_are_noops (g : Game) (shuffle : List Kind) (dx dy : Int)
    (cw fallDue : Bool)
    (h : g.paused = true ∨ g.gameOver = true ∨ g.currentPiece = none) :
    movePiece g dx dy = (false, g) ∧ rotatePiece g cw = (false, g) ∧
    softDrop g = (false, g) ∧ hardDrop shuffle g = g ∧
    update shuffle fallDue g = g := by
  rcases h with h | h | h
  · cases hc : g.currentPiece <;>
      simp [movePiece, rotatePiece, softDrop, hardDrop, update, lockPiece, hc, h]
  · cases hc : g.currentPiece <;>
      simp [movePiece, rotatePiece, softDrop, hardDrop, update, lockPiece, hc, h]
  · cases hgo : g.gameOver <;> cases hpa : g.paused <;>
      simp [movePiece, rotatePiece, softDrop, hardDrop, update, lockPiece, h, hgo, hpa]

/-- Witness for C6: on a paused game a horizontal move fails and leaves
the state untouched. -/
theorem guarded_ops_are_noops_witness :
    ({ sampleGame with paused := true } : Game).paused = true ∧
    movePiece { sampleGame with paused := true } 1 0 =
      (false, { sampleGame with paused := true }) :=
  ⟨rfl,
   (guarded_ops_are_noops { sampleGame with paused := true } [] 1 0 true true
     (Or.inl rfl)).1⟩

/-- The wall-kick loop returns exactly the first offset of the list at
which the rotated clone validates. -/
theorem tryKicks_eq_find (b : Board) (t : Piece) (baseX : Int) (l : List Int) :
    tryKicks b t baseX l =
      l.find? (fun dx => isValidPosition b { t with x := baseX + dx }) := by
  induction l with
  | nil => rfl
  | cons dx rest ih =>
    rw [tryKicks, List.find?_cons]
    by_cases hv : isValidPosition b { t with x := baseX + dx } = true
    · simp [hv]
    · simp only [Bool.not_eq_true] at hv
      simp [hv, ih]

/-- C4: with a current piece and the game neither paused nor over,
`rotate_piece` commits the rotation in place when it validates; otherwise
it commits the rotation together with the first offset of
`[-1, +1, -2, +2]` at which the rotated clone validates; and if no offset
validates it fails and the game (piece position and rotation included) is
unchanged. -/
theorem rotate_piece_wall_kick (g : Game) (p : Piece) (cw : Bool)
    (hp : g.currentPiece = some p) (hgo : g.gameOver = false)
    (hpa : g.paused = false) :
    rotatePiece g cw =
      (let t := if cw then rotateCW p else rotateCCW p
       if isValidPosition g.board t then (true, { g with currentPiece := some t })
       else
         match WALL_KICKS.find?
             (fun dx => isValidPosition g.board { t with x := p.x + dx }) with
         | some dx => (true, { g with currentPiece := some { t with x := p.x + dx } })
         | none => (false, g)) := by
  simp only [rotatePiece, hp, hgo, hpa, Bool.or_self, Bool.false_eq_true, if_false]
  rw [tryKicks_eq_find]

/-- Witness for C4: rotating the freshly spawned T piece succeeds in
place on an empty board. -/
theorem rotate_piece_wall_kick_witness :
    sampleGame.currentPiece = some (spawnPiece .T) ∧
    rotatePiece sampleGame true =
      (let t := rotateCW (spawnPiece .T)
       if isValidPosition sampleGame.board t then
         (true, { sampleGame with currentPiece := some t })
       else
         match WALL_KICKS.find?
             (fun dx =>
               isValidPosition sampleGame.board { t with x := (spawnPiece .T).x + dx }) with
         | some dx =>
           (true, { sampleGame with currentPiece := some { t with x := (spawnPiece .T).x + dx } })
         | none => (false, sampleGame)) :=
  ⟨rfl, rotate_piece_wall_kick sampleGame (spawnPiece .T) true rfl rfl rfl⟩

/-- A cell that passes the `is_valid_position` checks is horizontally in
range and above the bottom. -/
theorem cellOK_bounds (b : Board) (c : Int × Int) (h : cellOK b c = true) :
    0 ≤ c.1 ∧ c.1 < (b.width : Int) ∧ c.2 < (b.height : Int) := by
  unfold cellOK at h
  by_cases h1 : c.1 < 0 ∨ (b.width : Int) ≤ c.1 ∨ (b.height : Int) ≤ c.2
  · rw [if_pos h1] at h
    simp at h
  · push_neg at h1
    exact ⟨by omega, by omega, by omega⟩

/-- A `getD` read at an in-range index is a member of the list. -/
theorem getD_mem_of_lt {α : Type} (l : List α) (i : Nat) (d : α)
    (h : i < l.length) : l.getD i d ∈ l := by
  rw [List.getD_eq_getElem?_getD, List.getElem?_eq_getElem h]
  exact List.getElem_mem h

/-- One guarded write of `place_piece` preserves the grid dimensions. -/
theorem writeCell_wf (w h : Nat) (k : Kind) (g : List (List (Option Kind)))
    (c : Int × Int) (h1 : g.length = h) (h2 : ∀ r ∈ g, r.length = w) :
    (writeCell w h k g c).length = h ∧
    ∀ r ∈ writeCell w h k g c, r.length = w := by
  unfold writeCell
  split
  case isTrue hb =>
    constructor
    · simpa [setCell] using h1
    · intro r hr
      unfold setCell at hr
      rcases List.mem_or_eq_of_mem_set hr with hmem | rfl
      · exact h2 r hmem
      · rw [List.length_set]
        have hyl : c.2.toNat < g.length := by omega
        exact h2 _ (getD_mem_of_lt g c.2.toNat [] hyl)
  case isFalse => exact ⟨h1, h2⟩

/-- Reading after the single write `grid[y][x] = k`: the written cell
holds `k`, every other coordinate reads as before. -/
theorem cellAt_setCell (g : List (List (Option Kind))) (x y x' y' : Int)
    (k : Kind) (hx0 : 0 ≤ x) (hy0 : 0 ≤ y) (hyl : y.toNat < g.length)
    (hxl : x.toNat < (g.getD y.toNat []).length) :
    cellAt (setCell g x y k) x' y' =
      if x' = x ∧ y' = y then some k else cellAt g x' y' := by
  unfold cellAt gridCell setCell
  by_cases hg : 0 ≤ x' ∧ 0 ≤ y'
  · rw [if_pos hg]
    by_cases hyy : y'.toNat = y.toNat
    · have hy' : y' = y := by omega
      subst hy'
      simp only [List.getD_eq_getElem?_getD, List.getElem?_set_self hyl,
        Option.getD_some]
      by_cases hxx : x'.toNat = x.toNat
      · have hx' : x' = x := by omega
        have hxl' : x.toNat < ((g[y'.toNat]?).getD []).length := by
          simpa [List.getD_eq_getElem?_getD] using hxl
        simp [hx', List.getElem?_set_self hxl']
      · have hx' : x' ≠ x := by omega
        simp [hx', hg, List.getElem?_set_ne (Ne.symm hxx), List.getD_eq_getElem?_getD]
    · have hy' : ¬(x' = x ∧ y' = y) := by
        rintro ⟨-, rfl⟩
        omega
      rw [if_neg hy', if_pos hg]
      simp [List.getD_eq_getElem?_getD,
        List.getElem?_set_ne (by omega : y.toNat ≠ y'.toNat)]
  · rw [if_neg hg]
    have : ¬(x' = x ∧ y' = y) := by
      rintro ⟨rfl, rfl⟩
      exact hg ⟨hx0, hy0⟩
    rw [if_neg this, if_neg hg]

/-- Reading after the whole `place_piece` write loop: coordinates written
by an in-range cell of the list hold the piece kind, all others read as
before. -/
theorem cellAt_writes (w h : Nat) (k : Kind) (cells : List (Int × Int)) :
    ∀ (g : List (List (Option Kind))), g.length = h → (∀ r ∈ g, r.length = w) →
    ∀ x y : Int,
      cellAt (cells.foldl (writeCell w h k) g) x y =
        if (x, y) ∈ cells ∧ 0 ≤ y ∧ y < (h : Int) ∧ 0 ≤ x ∧ x < (w : Int) then
          some k
        else cellAt g x y := by
  induction cells with
  | nil => intro g _ _ x y; simp
  | cons c cs ih =>
    intro g hg1 hg2 x y
    rw [List.foldl_cons]
    have hwf' := writeCell_wf w h k g c hg1 hg2
    rw [ih (writeCell w h k g c) hwf'.1 hwf'.2 x y]
    by_cases hcs : (x, y) ∈ cs ∧ 0 ≤ y ∧ y < (h : Int) ∧ 0 ≤ x ∧ x < (w : Int)
    · rw [if_pos hcs, if_pos ⟨List.mem_cons_of_mem c hcs.1, hcs.2⟩]
    · rw [if_neg hcs]
      unfold writeCell
      by_cases hbc : 0 ≤ c.2 ∧ c.2 < (h : Int) ∧ 0 ≤ c.1 ∧ c.1 < (w : Int)
      · rw [if_pos hbc]
        have hyl : c.2.toNat < g.length := by omega
        have hxl : c.1.toNat < (g.getD c.2.toNat []).length := by
          have := hg2 _ (getD_mem_of_lt g c.2.toNat [] hyl)
          omega
        rw [cellAt_setCell g c.1 c.2 x y k hbc.2.2.1 hbc.1 hyl hxl]
        by_cases hxy : x = c.1 ∧ y = c.2
        · rw [if_pos hxy]
          have : (x, y) ∈ c :: cs ∧ 0 ≤ y ∧ y < (h : Int) ∧ 0 ≤ x ∧ x < (w : Int) := by
            refine ⟨?_, by omega, by omega, by omega, by omega⟩
            have : (x, y) = c := by
              obtain ⟨rfl, rfl⟩ := hxy
              rfl
            rw [this]
            exact List.mem_cons_self c cs
          rw [if_pos this]
        · rw [if_neg hxy]
          have : ¬((x, y) ∈ c :: cs ∧ 0 ≤ y ∧ y < (h : Int) ∧ 0 ≤ x ∧ x < (w : Int)) := by
            rintro ⟨hmem, hb⟩
            rcases List.mem_cons.mp hmem with heq | hmemcs
            · exact hxy ⟨congrArg Prod.fst heq, congrArg Prod.snd heq⟩
            · exact hcs ⟨hmemcs, hb⟩
          rw [if_neg this]
      · rw [if_neg hbc]
        have : ¬((x, y) ∈ c :: cs ∧ 0 ≤ y ∧ y < (h : Int) ∧ 0 ≤ x ∧ x < (w : Int)) := by
          rintro ⟨hmem, hb⟩
          rcases List.mem_cons.mp hmem with heq | hmemcs
          · apply hbc
            have h1 : x = c.1 := congrArg Prod.fst heq
            have h2 : y = c.2 := congrArg Prod.snd heq
            omega
          · exact hcs ⟨hmemcs, hb⟩
        rw [if_neg this]

/-- C3: `place_piece` validates first — failure reports `false` and
leaves the grid untouched; success reports `true` and writes the piece
kind into exactly the piece's cells whose row is within `[0, height)`
(cells above the board are silently dropped), leaving every other
coordinate unchanged. -/
theorem place_piece_spec (b : Board) (p : Piece) (hwf : BoardWF b) :
    (placePiece b p).1 = isValidPosition b p ∧
    (isValidPosition b p = false → (placePiece b p).2 = b) ∧
    (isValidPosition b p = true → ∀ x y : Int,
      cellAt (placePiece b p).2.grid x y =
        if (x, y) ∈ getCells p ∧ 0 ≤ y ∧ y < (b.height : Int) then some p.kind
        else cellAt b.grid x y) := by
  refine ⟨?_, ?_, ?_⟩
  · unfold placePiece
    split <;> simp_all
  · intro hinv
    unfold placePiece
    rw [hinv]
    simp
  · intro hvalid x y
    unfold placePiece
    rw [hvalid]
    simp only [if_true]
    rw [cellAt_writes b.width b.height p.kind (getCells p) b.grid hwf.1 hwf.2 x y]
    have hiff : ((x, y) ∈ getCells p ∧ 0 ≤ y ∧ y < (b.height : Int) ∧
          0 ≤ x ∧ x < (b.width : Int)) ↔
        ((x, y) ∈ getCells p ∧ 0 ≤ y ∧ y < (b.height : Int)) := by
      constructor
      · rintro ⟨hm, h1, h2, _, _⟩
        exact ⟨hm, h1, h2⟩
      · rintro ⟨hm, h1, h2⟩
        have hb := cellOK_bounds b (x, y) ((List.all_eq_true.mp hvalid) _ hm)
        exact ⟨hm, h1, h2, hb.1, hb.2.1⟩
    rw [if_congr hiff rfl rfl]

/-- Witness for C3: placing the freshly spawned O piece on the empty
default board succeeds and writes its kind at `(4, 0)`. -/
theorem place_piece_spec_witness :
    BoardWF initialBoard ∧
    cellAt (placePiece initialBoard (spawnPiece .O)).2.grid 4 0 =
      (if ((4 : Int), (0 : Int)) ∈ getCells (spawnPiece .O) ∧ (0 : Int) ≤ 0 ∧
          (0 : Int) < (initialBoard.height : Int) then some Kind.O
       else cellAt initialBoard.grid 4 0) :=
  ⟨by decide,
   (place_piece_spec initialBoard (spawnPiece .O) (by decide)).2.2 (by decide) 4 0⟩

/-- Relative shape cells have non-negative coordinates. -/
theorem shapeCells_nonneg (shape : List String) :
    ∀ u ∈ shapeCells shape, 0 ≤ u.1 ∧ 0 ≤ u.2 := by
  intro u hu
  unfold shapeCells at hu
  rw [List.mem_flatten] at hu
  obtain ⟨l, hl, hul⟩ := hu
  rw [List.mem_map] at hl
  obtain ⟨ri, _, rfl⟩ := hl
  rw [List.mem_filterMap] at hul
  obtain ⟨ci, _, hci⟩ := hul
  split at hci
  · cases hci
    exact ⟨Int.natCast_nonneg _, Int.natCast_nonneg _⟩
  · cases hci

/-- Every piece occupies at least one cell (each listed shape does). -/
theorem getCells_ne_nil (p : Piece) : getCells p ≠ [] := by
  have hall : ∀ k : Kind, ∀ i, i < (SHAPES k).length →
      shapeCells ((SHAPES k).getD i []) ≠ [] := by
    intro k
    cases k <;> decide
  unfold getCells currentShape
  intro hnil
  rw [List.map_eq_nil_iff] at hnil
  exact hall p.kind _ (rotIndex_lt p) hnil

/-- A piece that is valid on the board has its row above the bottom. -/
theorem valid_y_lt_height (b : Board) (t : Piece)
    (h : isValidPosition b t = true) : t.y < (b.height : Int) := by
  obtain ⟨c, hc⟩ := List.exists_mem_of_ne_nil _ (getCells_ne_nil t)
  have hok := (List.all_eq_true.mp h) c hc
  have hb := cellOK_bounds b c hok
  unfold getCells at hc
  rw [List.mem_map] at hc
  obtain ⟨u, hu, rfl⟩ := hc
  have hu2 : 0 ≤ u.2 := (shapeCells_nonneg _ u hu).2
  have hb2 : t.y + u.2 < (b.height : Int) := hb.2.2
  omega

/-- When the current row is already invalid, the drop loop stops at once
whatever the fuel: it returns the row minus one. -/
theorem dropLoop_stop (b : Board) (p : Piece) (fuel : Nat) (y : Int)
    (h : isValidPosition b { p with y := y } = false) :
    dropLoop b p fuel y = y - 1 := by
  cases fuel with
  | zero => rfl
  | succ fuel =>
    rw [dropLoop, h]
    simp

/-- Characterization of the drop loop on sufficient fuel: starting from a
valid row it lands on the last row of the contiguous valid stretch — every
row from the start through the result is valid and the next one is not. -/
theorem dropLoop_spec (b : Board) (p : Piece) :
    ∀ (fuel : Nat) (y : Int), ((b.height : Int) - y).toNat < fuel →
      isValidPosition b { p with y := y } = true →
      y ≤ dropLoop b p fuel y ∧
      (∀ u : Int, y ≤ u → u ≤ dropLoop b p fuel y →
        isValidPosition b { p with y := u } = true) ∧
      isValidPosition b { p with y := dropLoop b p fuel y + 1 } = false := by
  intro fuel
  induction fuel with
  | zero =>
    intro y hf hv
    omega
  | succ fuel ih =>
    intro y hf hv
    have hyh : ({ p with y := y } : Piece).y < (b.height : Int) :=
      valid_y_lt_height b _ hv
    have hyh' : y < (b.height : Int) := hyh
    rw [dropLoop, hv]
    simp only [if_true]
    by_cases hv' : isValidPosition b { p with y := y + 1 } = true
    · have hf' : ((b.height : Int) - (y + 1)).toNat < fuel := by omega
      obtain ⟨h1, h2, h3⟩ := ih (y + 1) hf' hv'
      refine ⟨by omega, ?_, h3⟩
      intro u hu1 hu2
      rcases eq_or_lt_of_le hu1 with rfl | hlt
      · exact hv
      · exact h2 u (by omega) hu2
    · have hvf : isValidPosition b { p with y := y + 1 } = false := by
        simpa using hv'
      rw [dropLoop_stop b p fuel (y + 1) hvf]
      have he : y + 1 - 1 = y := by ring
      rw [he]
      refine ⟨le_refl y, ?_, ?_⟩
      · intro u hu1 hu2
        have : u = y := by omega
        subst this
        exact hv
      · exact hvf

/-- C7 (amended): for a piece currently valid on the board,
`get_drop_position` returns the last row of the contiguous run of valid
rows below the current one — i.e. one step before the FIRST invalid
position reached moving down (the least such row, not the greatest). -/
theorem get_drop_position_first_rest (b : Board) (p : Piece)
    (hv : isValidPosition b p = true) :
    p.y ≤ getDropPosition b p ∧
    (∀ u : Int, p.y ≤ u → u ≤ getDropPosition b p →
      isValidPosition b { p with y := u } = true) ∧
    isValidPosition b { p with y := getDropPosition b p + 1 } = false := by
  have hv' : isValidPosition b { p with y := p.y } = true := hv
  have hyh : p.y < (b.height : Int) := valid_y_lt_height b p hv
  unfold getDropPosition
  exact dropLoop_spec b p _ p.y (by omega) hv'

/-- Witness for C7's amended theorem on a 2×3 empty board with an O
piece: the landing row is valid and the row below it is not. -/
theorem get_drop_position_first_rest_witness :
    isValidPosition (Board.init 2 3) ⟨.O, 0, 0, 0⟩ = true ∧
    isValidPosition (Board.init 2 3)
      { (⟨.O, 0, 0, 0⟩ : Piece) with
          y := getDropPosition (Board.init 2 3) ⟨.O, 0, 0, 0⟩ + 1 } = false :=
  ⟨by decide,
   (get_drop_position_first_rest (Board.init 2 3) ⟨.O, 0, 0, 0⟩ (by decide)).2.2⟩

/-- C7 counterexample: on the overhang board the O piece at row −1 is
valid, `get_drop_position` returns −1, yet row 3 is also valid with row 4
invalid — so the returned row is NOT the greatest row satisfying
"valid here, invalid one below"; it is the first one. -/
theorem get_drop_position_not_greatest :
    isValidPosition ovBoard ovPiece = true ∧
    getDropPosition ovBoard ovPiece = -1 ∧
    isValidPosition ovBoard { ovPiece with y := 3 } = true ∧
    isValidPosition ovBoard { ovPiece with y := 4 } = false ∧
    getDropPosition ovBoard ovPiece < 3 := by
  refine ⟨by decide, by decide, by decide, by decide, by decide⟩

/-- The `get_height_at_column` scan from `row` with the matching fuel
finds the first occupied row of the column at or below `row` (given a
well-formed grid and an in-range column). -/
theorem heightLoop_findIdx (b : Board) (col : Int) (hwf : BoardWF b)
    (h0 : 0 ≤ col) (hw : col < (b.width : Int)) :
    ∀ (fuel row : Nat), row + fuel = b.height →
      heightLoop b col fuel row =
        some (match (b.grid.drop row).findIdx?
                (fun r => (r.getD col.toNat none).isSome) with
              | some i => b.height - (row + i)
              | none => 0) := by
  obtain ⟨hlen, hrows⟩ := hwf
  intro fuel
  induction fuel with
  | zero =>
    intro row h
    have hdrop : b.grid.drop row = [] := List.drop_eq_nil_of_le (by omega)
    rw [hdrop]
    rfl
  | succ fuel ih =>
    intro row h
    have hrow : row < b.grid.length := by omega
    have hget : b.grid.get? row = some b.grid[row] := by
      rw [List.get?_eq_getElem?]
      exact List.getElem?_eq_getElem hrow
    have hrlen : b.grid[row].length = b.width := hrows _ (List.getElem_mem hrow)
    have hcol : col.toNat < b.grid[row].length := by omega
    have hpy : pyIdx b.grid[row] col = some b.grid[row][col.toNat] := by
      unfold pyIdx
      rw [if_pos h0, List.get?_eq_getElem?, List.getElem?_eq_getElem hcol]
    rw [heightLoop]
    simp only [hget, hpy]
    rw [List.drop_eq_getElem_cons hrow, List.findIdx?_cons]
    have hpred : ((b.grid[row]).getD col.toNat none).isSome
        = (b.grid[row][col.toNat]).isSome := by
      rw [List.getD_eq_getElem?_getD, List.getElem?_eq_getElem hcol,
        Option.getD_some]
    by_cases hc : (b.grid[row][col.toNat]).isSome = true
    · rw [if_pos hc]
      simp only [hpred, hc, if_true]
      simp
    · have hcf : (b.grid[row][col.toNat]).isSome = false := by
        simpa using hc
      rw [if_neg hc]
      rw [ih (row + 1) (by omega)]
      simp only [hpred, hcf, Bool.false_eq_true, if_false]
      rw [List.findIdx?_succ]
      cases hfi : (b.grid.drop (row + 1)).findIdx?
          (fun r => (r.getD col.toNat none).isSome) with
      | none => rfl
      | some i =>
        simp only [Option.map_some']
        have harith : row + 1 + i = row + (i + 1) := by omega
        rw [harith]

/-- C10: with a well-formed board, `get_height_at_column` only guarantees
an in-bounds read for columns `0 ≤ col < width`; under that precondition
it returns the board height minus the topmost occupied row of the column
(0 for an entirely empty column), while a column at or past the width
raises (modelled `none`) on any board with at least one row; by contrast
`get_cell_type` returns empty for any out-of-range coordinates. -/
theorem get_height_at_column_spec (b : Board) (col : Int) (hwf : BoardWF b) :
    (0 ≤ col → col < (b.width : Int) →
      getHeightAtColumn b col = some (columnHeightSpec b col)) ∧
    ((b.width : Int) ≤ col → 0 < b.height → getHeightAtColumn b col = none) ∧
    (∀ x y : Int,
      x < 0 ∨ (b.width : Int) ≤ x ∨ y < 0 ∨ (b.height : Int) ≤ y →
      getCellType b x y = none) := by
  refine ⟨?_, ?_, ?_⟩
  · intro h0 hw
    unfold getHeightAtColumn columnHeightSpec columnTop
    rw [heightLoop_findIdx b col hwf h0 hw b.height 0 (by omega)]
    rw [List.drop_zero]
    cases hfi : b.grid.findIdx? (fun r => (r.getD col.toNat none).isSome) with
    | none => rfl
    | some i => simp [hfi]
  · intro hcol hh
    obtain ⟨hlen, hrows⟩ := hwf
    unfold getHeightAtColumn
    cases hh' : b.height with
    | zero => omega
    | succ m =>
      rw [heightLoop]
      have hrow0 : 0 < b.grid.length := by omega
      have hget : b.grid.get? 0 = some b.grid[0] := by
        rw [List.get?_eq_getElem?]
        exact List.getElem?_eq_getElem hrow0
      have hpy : pyIdx b.grid[0] col = none := by
        unfold pyIdx
        rw [if_pos (by omega : (0 : Int) ≤ col), List.get?_eq_getElem?]
        apply List.getElem?_eq_none
        have := hrows _ (List.getElem_mem hrow0)
        omega
      simp only [hget, hpy]
  · intro x y hxy
    unfold getCellType
    rw [if_neg]
    rintro ⟨h1, h2, h3, h4⟩
    rcases hxy with h | h | h | h <;> omega

/-- Witness for C10: on the well-formed `bugBoard`, column 0 (in range)
reports height 3 = the spec-side column height. -/
theorem get_height_at_column_spec_witness :
    BoardWF bugBoard ∧
    getHeightAtColumn bugBoard 0 = some (columnHeightSpec bugBoard 0) :=
  ⟨by decide,
   (get_height_at_column_spec bugBoard 0 (by decide)).1 (by decide) (by decide)⟩

end BlockDrop
